import Mathlib

/-!
Verification development for the vectorless-RAG demo script (app.py).

The script drives a small retrieval protocol: ingest a PDF (upload or URL),
submit it to an external indexing service, poll readiness up to 20 times,
fetch a document tree, strip bulk text from the tree for prompting, ask a
language model for a list of relevant node ids, assemble a context string
from the summaries of those nodes, and ask the model again for the final
answer.  External collaborators (HTTP, the indexing service, the language
model) are modelled as function parameters; observable side effects are
modelled as an explicit event trace.
-/

namespace VRag

/-- A node record of the document tree: id, title, summary and the
optional bulk text field. -/
structure NodeRec where
  id : String
  title : String
  summary : String
  text : Option String
deriving DecidableEq, Repr

/-- The document tree returned by the indexing service: a rooted ordered
tree of nodes, each carrying id, title, summary, optional text, and an
ordered list of children. -/
inductive Tree where
  | node (id : String) (title : String) (summary : String)
      (text : Option String) (children : List Tree)
deriving Repr

/-- Python dict membership test over an association-list model of the
node map (the test written as nid in node_map). -/
def dictContains (m : List (String × NodeRec)) (k : String) : Bool :=
  m.any (fun p => p.1 == k)

/-- Python dict item access over the association-list model
(node_map indexed at nid), as an Option. -/
def dictFind (m : List (String × NodeRec)) (k : String) : Option NodeRec :=
  (m.find? (fun p => p.1 == k)).map (fun p => p.2)

/-- Embedding of app.py line 128: the double-newline join of
node_map[nid]["summary"] for nid in node_list if nid in node_map.
The generator filters ids by dict membership and then indexes the dict;
under the membership guard the index never fails, so the total model
completes the access with a default. -/
def relevant_content (node_map : List (String × NodeRec))
    (node_list : List String) : String :=
  String.intercalate "\n\n"
    ((node_list.filter (fun nid => dictContains node_map nid)).map
      (fun nid => ((dictFind node_map nid).map NodeRec.summary).getD ""))

/-- The context as the spec phrases it: the join over L of the summary of
M at id, for exactly those ids found in M, in the order of L. -/
def contextOfSpec (m : List (String × NodeRec)) (l : List String) : String :=
  String.intercalate "\n\n"
    (l.filterMap (fun nid => (dictFind m nid).map NodeRec.summary))

mutual

/-- The preorder list of node records of a tree: each node of the tree in
preorder, children in their stored order. -/
def nodesOf : Tree → List NodeRec
  | Tree.node i t s tx cs => NodeRec.mk i t s tx :: nodesList cs

/-- Preorder node records of a list of trees, in order. -/
def nodesList : List Tree → List NodeRec
  | [] => []
  | t :: ts => nodesOf t ++ nodesList ts

end

/-- The number of nodes of a tree, at any depth. -/
def countNodes (t : Tree) : Nat := (nodesOf t).length

/-- All node ids of a tree, in preorder. -/
def allIds (t : Tree) : List String := (nodesOf t).map NodeRec.id

/-- All node titles of a tree, in preorder. -/
def allTitles (t : Tree) : List String := (nodesOf t).map NodeRec.title

/-- All node summaries of a tree, in preorder. -/
def allSummaries (t : Tree) : List String := (nodesOf t).map NodeRec.summary

mutual

/-- Modelled from the spec: create_node_mapping lives in the external
pageindex SDK, not in this repository; per the spec it walks the full tree
(including text) and returns every node keyed by id, regardless of depth. -/
def create_node_mapping : Tree → List (String × NodeRec)
  | Tree.node i t s tx cs =>
      (i, NodeRec.mk i t s tx) :: create_node_mapping_list cs

/-- The node mapping of a list of subtrees, concatenated in order. -/
def create_node_mapping_list : List Tree → List (String × NodeRec)
  | [] => []
  | t :: ts => create_node_mapping t ++ create_node_mapping_list ts

end

mutual

/-- Modelled from the spec: strip_text (app.py line 109 calls the external
SDK function remove_fields on the tree with the field list containing the
text field); per the spec it removes the text field from every node,
recursively, preserving structure, ids, titles, summaries and child order. -/
def strip_text : Tree → Tree
  | Tree.node i t s _ cs => Tree.node i t s none (strip_text_list cs)

/-- Text stripping over a list of subtrees, preserving order. -/
def strip_text_list : List Tree → List Tree
  | [] => []
  | t :: ts => strip_text t :: strip_text_list ts

end

/-- Erasing the text field of one node record. -/
def eraseText (r : NodeRec) : NodeRec := NodeRec.mk r.id r.title r.summary none

/-- Modelled from the spec: the tree-projection stage of a question
(app.py line 109) derives the text-stripped view for the prompt while the
session keeps the original tree for the later node-map lookup; the pair is
(stripped view for the prompt, tree retained by the session). -/
def tree_projection (t : Tree) : Tree × Tree := (strip_text t, t)

/-- A file payload received through the upload widget: original filename
and raw bytes. -/
structure UploadedFile where
  name : String
  content : List Nat
deriving DecidableEq, Repr

/-- A minimal model of the JSON values that occur in the parsed
language-model reply: a string or a list of strings. -/
inductive JVal where
  | str (s : String)
  | list (items : List String)
deriving DecidableEq, Repr

/-- Observable side effects of the script, recorded as an explicit trace. -/
inductive Event where
  | mkdirData
  | wroteFile (path : String) (content : List Nat)
  | httpGet (url : String)
  | submitCalled (path : String)
  | checkedReady
  | slept
  | fetchedTree
  | errorShown (msg : String)
  | shownThinking (s : String)
  | assembledContext (s : String)
  | calledCompletion (prompt : String)
deriving DecidableEq, Repr

/-- The number of occurrences of an event in a trace. -/
def countEv (e : Event) (es : List Event) : Nat :=
  (es.filter (fun x => decide (x = e))).length

/-- The "still processing" message of app.py line 95. -/
def pollTimeoutMsg : String := "PageIndex is still processing. Try again later."

/-- The validation message of app.py line 58. -/
def noInputMsg : String := "Please provide a PDF URL or upload a PDF file."

/-- Embedding of the poll loop of app.py lines 90-93: a for loop over 20
attempts that breaks as soon as the readiness check returns true and
otherwise sleeps one second per attempt.  The readiness sequence is a
function from the 0-based attempt index to a boolean.  Returns the trace
of checks and sleeps together with whether the loop exited through the
break (readiness observed). -/
def pollEvents (ready : Nat → Bool) : Nat → Nat → List Event × Bool
  | 0, _ => ([], false)
  | Nat.succ n, i =>
      if ready i then ([Event.checkedReady], true)
      else
        let r := pollEvents ready n (i + 1)
        (Event.checkedReady :: Event.slept :: r.1, r.2)

/-- Embedding of app.py lines 90-99: run the 20-attempt poll loop; on the
for-else branch (readiness never observed) show the timeout error and
stop, otherwise fetch the tree. -/
def indexing_phase (ready : Nat → Bool) (tree : Tree) :
    List Event × Except String Tree :=
  let r := pollEvents ready 20 0
  if r.2 then (r.1 ++ [Event.fetchedTree], Except.ok tree)
  else (r.1 ++ [Event.errorShown pollTimeoutMsg], Except.error pollTimeoutMsg)

/-- Embedding of the run-button handler, app.py lines 55-99: validate the
inputs, ingest the PDF (upload takes the branch at line 61, otherwise the
URL download at lines 70-77), submit the document, poll readiness and
fetch the tree.  The parameter get models requests.get (an Except.error is
a raised network exception), submit models pi_client.submit_document,
ready the readiness sequence and tree the service's tree. -/
def run_clicked (pdf_url : String) (uploaded : Option UploadedFile)
    (get : String → Except String (List Nat))
    (submit : String → Except String String)
    (ready : Nat → Bool) (tree : Tree) : List Event × Except String Tree :=
  if pdf_url = "" ∧ uploaded = none then
    ([Event.errorShown noInputMsg], Except.error noInputMsg)
  else
    let step1 : List Event × Except String String :=
      match uploaded with
      | some f =>
          ([Event.mkdirData, Event.wroteFile ("data/" ++ f.name) f.content],
            Except.ok ("data/" ++ f.name))
      | none =>
          let pdf_path := "data/" ++ (pdf_url.splitOn "/").getLastD ""
          match get pdf_url with
          | Except.error e => ([Event.mkdirData, Event.httpGet pdf_url], Except.error e)
          | Except.ok content =>
              ([Event.mkdirData, Event.httpGet pdf_url,
                Event.wroteFile pdf_path content], Except.ok pdf_path)
    match step1 with
    | (es, Except.error e) => (es, Except.error e)
    | (es, Except.ok pdf_path) =>
        match submit pdf_path with
        | Except.error e => (es ++ [Event.submitCalled pdf_path], Except.error e)
        | Except.ok _doc_id =>
            let r := indexing_phase ready tree
            (es ++ [Event.submitCalled pdf_path] ++ r.1, r.2)

/-- The answer prompt template of app.py lines 133-135. -/
def answer_prompt (query ctx : String) : String :=
  "\nAnswer the question based on the context:\n\nQuestion: " ++ query ++
    "\nContext: " ++ ctx ++
    "\n\nProvide a clear, concise answer based only on the context provided.\n"

/-- Iterating a JSON value the way Python iterates it: a list yields its
items, a string yields its characters. -/
def jvalItems : JVal → List String
  | JVal.str s => s.data.map (fun c => String.mk [c])
  | JVal.list l => l

/-- Python dict item access on the parsed JSON object; none models a
raised KeyError. -/
def objGet (o : List (String × JVal)) (k : String) : Option JVal :=
  (o.find? (fun p => p.1 == k)).map (fun p => p.2)

/-- Embedding of app.py lines 120-143, the part of the question handler
after json.loads succeeded: display the thinking field (line 121, a
KeyError aborts), read the node_list field (line 123, a KeyError aborts),
build the node map from the original tree, assemble the context, and make
the second completion call.  The parameter llm models the completion
endpoint. -/
def retrieve_answer (parsed : List (String × JVal)) (tree : Tree)
    (query : String) (llm : String → String) : List Event × Except String String :=
  match objGet parsed "thinking" with
  | none => ([], Except.error "KeyError: thinking")
  | some th =>
      match objGet parsed "node_list" with
      | none => ([Event.shownThinking (toString (repr th))],
          Except.error "KeyError: node_list")
      | some nl =>
          let node_map := create_node_mapping tree
          let ctx := relevant_content node_map (jvalItems nl)
          let prompt := answer_prompt query ctx
          ([Event.shownThinking (toString (repr th)),
            Event.assembledContext ctx, Event.calledCompletion prompt],
            Except.ok (llm prompt))

/-- A small concrete tree used to exercise the definitions. -/
def exampleTree : Tree :=
  Tree.node "0000" "Intro" "Background info" (some "full text")
    [Tree.node "0001" "Conclusion" "Final remarks" (some "more text") []]

theorem dictContains_eq_isSome (m : List (String × NodeRec)) (k : String) :
    dictContains m k = (dictFind m k).isSome := by
  induction m with
  | nil => simp [dictContains, dictFind]
  | cons p m ih =>
    by_cases h : p.1 == k
    · simp [dictContains, dictFind, List.find?, h]
    · simp only [Bool.not_eq_true] at h
      simp [dictContains, dictFind, List.find?, h] at ih ⊢
      exact ih

theorem filter_map_eq_filterMap (m : List (String × NodeRec)) (l : List String) :
    (l.filter (fun nid => dictContains m nid)).map
      (fun nid => ((dictFind m nid).map NodeRec.summary).getD "")
      = l.filterMap (fun nid => (dictFind m nid).map NodeRec.summary) := by
  induction l with
  | nil => rfl
  | cons a l ih =>
    by_cases h : dictContains m a
    · have hs : (dictFind m a).isSome := by rw [← dictContains_eq_isSome, h]
      obtain ⟨r, hr⟩ := Option.isSome_iff_exists.mp hs
      simp [List.filter_cons, h, List.filterMap_cons, hr, ih]
    · have hn : dictFind m a = none := by
        rw [← Option.not_isSome_iff_eq_none, ← dictContains_eq_isSome]
        simpa using h
      simp only [Bool.not_eq_true] at h
      simp [List.filter_cons, h, List.filterMap_cons, hn, ih]

mutual

theorem create_node_mapping_eq (t : Tree) :
    create_node_mapping t = (nodesOf t).map (fun r => (r.id, r)) := by
  cases t with
  | node i ti s tx cs =>
      simp [create_node_mapping, nodesOf, create_node_mapping_list_eq cs]

theorem create_node_mapping_list_eq (ts : List Tree) :
    create_node_mapping_list ts = (nodesList ts).map (fun r => (r.id, r)) := by
  cases ts with
  | nil => simp [create_node_mapping_list, nodesList]
  | cons t ts =>
      simp [create_node_mapping_list, nodesList, create_node_mapping_eq t,
        create_node_mapping_list_eq ts]

end

mutual

theorem nodesOf_strip_text (t : Tree) :
    nodesOf (strip_text t) = (nodesOf t).map eraseText := by
  cases t with
  | node i ti s tx cs =>
      simp [strip_text, nodesOf, eraseText, nodesList_strip_text_list cs]

theorem nodesList_strip_text_list (ts : List Tree) :
    nodesList (strip_text_list ts) = (nodesList ts).map eraseText := by
  cases ts with
  | nil => simp [strip_text_list, nodesList]
  | cons t ts =>
      simp [strip_text_list, nodesList, nodesOf_strip_text t,
        nodesList_strip_text_list ts]

end

theorem countEv_nil (e : Event) : countEv e [] = 0 := rfl

theorem countEv_cons (e a : Event) (l : List Event) :
    countEv e (a :: l) = (if a = e then 1 else 0) + countEv e l := by
  by_cases h : a = e <;> simp [countEv, List.filter_cons, h, Nat.add_comm]

theorem countEv_append (e : Event) (l₁ l₂ : List Event) :
    countEv e (l₁ ++ l₂) = countEv e l₁ + countEv e l₂ := by
  simp [countEv, List.filter_append]

theorem pollEvents_first_true (ready : Nat → Bool) :
    ∀ d i n, d < n → ready (i + d) = true →
    (∀ j, j < d → ready (i + j) = false) →
    countEv Event.checkedReady (pollEvents ready n i).1 = d + 1 ∧
    countEv Event.slept (pollEvents ready n i).1 = d ∧
    (pollEvents ready n i).2 = true := by
  intro d
  induction d with
  | zero =>
      intro i n hn hr _
      obtain ⟨m, rfl⟩ := Nat.exists_eq_succ_of_ne_zero (Nat.pos_iff_ne_zero.mp hn)
      rw [Nat.add_zero] at hr
      simp [pollEvents, hr, countEv_cons, countEv_nil]
  | succ d ih =>
      intro i n hn hr hfalse
      obtain ⟨m, rfl⟩ := Nat.exists_eq_succ_of_ne_zero
        (Nat.pos_iff_ne_zero.mp (Nat.lt_of_le_of_lt (Nat.zero_le _) hn))
      have h0 : ready i = false := by
        have := hfalse 0 (Nat.succ_pos d)
        rwa [Nat.add_zero] at this
      have hr2 : ready (i + 1 + d) = true := by
        have he : i + 1 + d = i + (d + 1) := by omega
        rw [he]; exact hr
      have hfalse2 : ∀ j, j < d → ready (i + 1 + j) = false := by
        intro j hj
        have := hfalse (j + 1) (Nat.succ_lt_succ hj)
        have he : i + 1 + j = i + (j + 1) := by omega
        rw [he]; exact this
      have hd : d < m := Nat.lt_of_succ_lt_succ hn
      obtain ⟨hc, hs, hb⟩ := ih (i + 1) m hd hr2 hfalse2
      simp [pollEvents, h0, countEv_cons, hc, hs, hb]
      omega

theorem pollEvents_timeout (ready : Nat → Bool) :
    ∀ n i, (∀ j, j < n → ready (i + j) = false) →
    countEv Event.checkedReady (pollEvents ready n i).1 = n ∧
    countEv Event.slept (pollEvents ready n i).1 = n ∧
    (pollEvents ready n i).2 = false := by
  intro n
  induction n with
  | zero => intro i _; simp [pollEvents, countEv_nil]
  | succ n ih =>
      intro i hfalse
      have h0 : ready i = false := by
        have := hfalse 0 (Nat.succ_pos n)
        rwa [Nat.add_zero] at this
      have hfalse2 : ∀ j, j < n → ready (i + 1 + j) = false := by
        intro j hj
        have := hfalse (j + 1) (Nat.succ_lt_succ hj)
        have he : i + 1 + j = i + (j + 1) := by omega
        rw [he]; exact this
      obtain ⟨hc, hs, hb⟩ := ih (i + 1) hfalse2
      simp [pollEvents, h0, countEv_cons, hc, hs, hb]
      omega

theorem pollEvents_mem (ready : Nat → Bool) :
    ∀ n i e, e ∈ (pollEvents ready n i).1 →
    e = Event.checkedReady ∨ e = Event.slept := by
  intro n
  induction n with
  | zero => intro i e h; simp [pollEvents] at h
  | succ n ih =>
      intro i e h
      by_cases hr : ready i
      · simp [pollEvents, hr] at h
        exact Or.inl h
      · simp only [Bool.not_eq_true] at hr
        simp [pollEvents, hr] at h
        rcases h with h | h | h
        · exact Or.inl h
        · exact Or.inr h
        · exact ih (i + 1) e h

theorem indexing_phase_mem (ready : Nat → Bool) (tree : Tree) (e : Event) :
    e ∈ (indexing_phase ready tree).1 →
    e = Event.checkedReady ∨ e = Event.slept ∨ e = Event.fetchedTree ∨
      e = Event.errorShown pollTimeoutMsg := by
  intro h
  unfold indexing_phase at h
  by_cases hb : (pollEvents ready 20 0).2
  · simp [hb] at h
    rcases h with h | h
    · rcases pollEvents_mem ready 20 0 e h with h | h
      · exact Or.inl h
      · exact Or.inr (Or.inl h)
    · exact Or.inr (Or.inr (Or.inl h))
  · simp only [Bool.not_eq_true] at hb
    simp [hb] at h
    rcases h with h | h
    · rcases pollEvents_mem ready 20 0 e h with h | h
      · exact Or.inl h
      · exact Or.inr (Or.inl h)
    · exact Or.inr (Or.inr (Or.inr h))

/-- C1: for every ordered id list L and node map M, the assembled context
string equals the double-newline join of the summaries of the ids of L
found in M, in the order of L with one contribution per occurrence, ids
absent from M skipped; and the context is empty when no id of L is a key
of M. -/
theorem relevant_content_matches_spec (m : List (String × NodeRec))
    (l : List String) :
    relevant_content m l = contextOfSpec m l ∧
    ((∀ nid ∈ l, dictContains m nid = false) → relevant_content m l = "") := by
  constructor
  · unfold relevant_content contextOfSpec
    rw [filter_map_eq_filterMap]
  · intro h
    unfold relevant_content
    have hf : l.filter (fun nid => dictContains m nid) = [] := by
      rw [List.filter_eq_nil_iff]
      intro a ha
      simp [h a ha]
    rw [hf]
    rfl

/-- Witness for C1 at a concrete map and id list, the second map having no
key of the list. -/
theorem relevant_content_matches_spec_witness :
    (relevant_content
        [("0001", NodeRec.mk "0001" "Conclusion" "Final remarks" none)]
        ["0001", "0002", "0001"]
      = contextOfSpec
        [("0001", NodeRec.mk "0001" "Conclusion" "Final remarks" none)]
        ["0001", "0002", "0001"]) ∧
    relevant_content [] ["0001"] = "" :=
  ⟨(relevant_content_matches_spec
      [("0001", NodeRec.mk "0001" "Conclusion" "Final remarks" none)]
      ["0001", "0002", "0001"]).1,
   (relevant_content_matches_spec [] ["0001"]).2 (by decide)⟩

/-- C5: the key sequence of the node mapping of a tree is exactly the
preorder sequence of all node ids of the tree, at any depth; hence the key
set equals the id set, and when the ids of the tree are unique every id
appears at most once as a key. -/
theorem create_node_mapping_keys (t : Tree) :
    (create_node_mapping t).map Prod.fst = allIds t ∧
    ((allIds t).Nodup → ((create_node_mapping t).map Prod.fst).Nodup) := by
  have h : (create_node_mapping t).map Prod.fst = allIds t := by
    rw [create_node_mapping_eq, allIds, List.map_map]
    rfl
  exact ⟨h, fun hd => h ▸ hd⟩

/-- Witness for C5 at a concrete two-node tree with distinct ids. -/
theorem create_node_mapping_keys_witness :
    (allIds exampleTree).Nodup ∧
    ((create_node_mapping exampleTree).map Prod.fst).Nodup := by
  have hd : (allIds exampleTree).Nodup := by
    simp [allIds, exampleTree, nodesOf, nodesList]
  exact ⟨hd, (create_node_mapping_keys exampleTree).2 hd⟩

/-- C6: text stripping preserves the node count and, node for node in
preorder (hence with the same child order), the ids, titles and summaries,
and no node of the stripped view has a text field. -/
theorem strip_text_preserves_structure (t : Tree) :
    countNodes (strip_text t) = countNodes t ∧
    allIds (strip_text t) = allIds t ∧
    allTitles (strip_text t) = allTitles t ∧
    allSummaries (strip_text t) = allSummaries t ∧
    ∀ r ∈ nodesOf (strip_text t), r.text = none := by
  refine ⟨?_, ?_, ?_, ?_, ?_⟩
  · simp [countNodes, nodesOf_strip_text]
  · simp only [allIds, nodesOf_strip_text, List.map_map]
    exact List.map_congr_left (fun r _ => rfl)
  · simp only [allTitles, nodesOf_strip_text, List.map_map]
    exact List.map_congr_left (fun r _ => rfl)
  · simp only [allSummaries, nodesOf_strip_text, List.map_map]
    exact List.map_congr_left (fun r _ => rfl)
  · intro r hr
    rw [nodesOf_strip_text] at hr
    obtain ⟨r0, _, rfl⟩ := List.mem_map.mp hr
    rfl

/-- C3: the tree-projection stage does not mutate its input: the tree the
session keeps is the original tree, its text fields are unchanged, and the
node map built from it later is the node map of the original tree, while
the derived view for the prompt has no text field on any node. -/
theorem tree_projection_frame (t : Tree) :
    (tree_projection t).2 = t ∧
    (nodesOf (tree_projection t).2).map NodeRec.text
      = (nodesOf t).map NodeRec.text ∧
    create_node_mapping (tree_projection t).2 = create_node_mapping t ∧
    ∀ r ∈ nodesOf (tree_projection t).1, r.text = none := by
  refine ⟨rfl, rfl, rfl, ?_⟩
  intro r hr
  simp only [tree_projection] at hr
  rw [nodesOf_strip_text] at hr
  obtain ⟨r0, _, rfl⟩ := List.mem_map.mp hr
  rfl

/-- C2: if readiness first becomes true on attempt k (1-based, 1 ≤ k ≤ 20)
the poll loop performs exactly k readiness checks and then the tree is
fetched; if readiness is false on all 20 checks, exactly 20 checks occur,
the "still processing" error is shown, execution stops with an error and
no tree fetch is attempted. -/
theorem poll_loop_bound (ready : Nat → Bool) (tree : Tree) :
    (∀ k, 1 ≤ k → k ≤ 20 → ready (k - 1) = true →
      (∀ j, j < k - 1 → ready j = false) →
      countEv Event.checkedReady (indexing_phase ready tree).1 = k ∧
      Event.fetchedTree ∈ (indexing_phase ready tree).1 ∧
      (indexing_phase ready tree).2 = Except.ok tree) ∧
    ((∀ j, j < 20 → ready j = false) →
      countEv Event.checkedReady (indexing_phase ready tree).1 = 20 ∧
      Event.errorShown pollTimeoutMsg ∈ (indexing_phase ready tree).1 ∧
      Event.fetchedTree ∉ (indexing_phase ready tree).1 ∧
      (indexing_phase ready tree).2 = Except.error pollTimeoutMsg) := by
  constructor
  · intro k hk1 hk20 hr hf
    have hd : k - 1 < 20 := by omega
    have hr0 : ready (0 + (k - 1)) = true := by rwa [Nat.zero_add]
    have hf0 : ∀ j, j < k - 1 → ready (0 + j) = false := by
      intro j hj; rw [Nat.zero_add]; exact hf j hj
    obtain ⟨hc, _, hb⟩ := pollEvents_first_true ready (k - 1) 0 20 hd hr0 hf0
    have hk : k - 1 + 1 = k := by omega
    rw [hk] at hc
    refine ⟨?_, ?_, ?_⟩
    · simp [indexing_phase, hb, countEv_append, hc, countEv_cons, countEv_nil]
    · simp [indexing_phase, hb]
    · simp [indexing_phase, hb]
  · intro hf
    have hf0 : ∀ j, j < 20 → ready (0 + j) = false := by
      intro j hj; rw [Nat.zero_add]; exact hf j hj
    obtain ⟨hc, _, hb⟩ := pollEvents_timeout ready 20 0 hf0
    refine ⟨?_, ?_, ?_, ?_⟩
    · simp [indexing_phase, hb, countEv_append, hc, countEv_cons, countEv_nil]
    · simp [indexing_phase, hb]
    · intro hmem
      have htr : (indexing_phase ready tree).1
          = (pollEvents ready 20 0).1 ++ [Event.errorShown pollTimeoutMsg] := by
        simp [indexing_phase, hb]
      rw [htr, List.mem_append] at hmem
      rcases hmem with hmem | hmem
      · rcases pollEvents_mem ready 20 0 _ hmem with h | h <;> exact absurd h (by simp)
      · simp at hmem
    · simp [indexing_phase, hb]

/-- Witness for C2: readiness first true on the third attempt fetches the
tree after exactly three checks; readiness never true times out after
exactly twenty checks with no fetch. -/
theorem poll_loop_bound_witness :
    (countEv Event.checkedReady
        (indexing_phase (fun i => i == 2) exampleTree).1 = 3 ∧
      Event.fetchedTree ∈ (indexing_phase (fun i => i == 2) exampleTree).1 ∧
      (indexing_phase (fun i => i == 2) exampleTree).2 = Except.ok exampleTree) ∧
    (countEv Event.checkedReady
        (indexing_phase (fun _ => false) exampleTree).1 = 20 ∧
      Event.errorShown pollTimeoutMsg ∈
        (indexing_phase (fun _ => false) exampleTree).1 ∧
      Event.fetchedTree ∉ (indexing_phase (fun _ => false) exampleTree).1 ∧
      (indexing_phase (fun _ => false) exampleTree).2
        = Except.error pollTimeoutMsg) :=
  ⟨(poll_loop_bound (fun i => i == 2) exampleTree).1 3 (by decide) (by decide)
      (by decide) (by decide),
   (poll_loop_bound (fun _ => false) exampleTree).2 (fun j _ => rfl)⟩

/-- C10: the poll loop checks readiness before sleeping: when readiness
first holds on attempt k (1-based, 1 ≤ k ≤ 20) exactly k - 1 sleep
intervals elapse, so a document ready on the first check incurs no wait. -/
theorem poll_sleep_count (ready : Nat → Bool) (tree : Tree) (k : Nat)
    (hk1 : 1 ≤ k) (hk20 : k ≤ 20) (hr : ready (k - 1) = true)
    (hf : ∀ j, j < k - 1 → ready j = false) :
    countEv Event.slept (indexing_phase ready tree).1 = k - 1 := by
  have hd : k - 1 < 20 := by omega
  have hr0 : ready (0 + (k - 1)) = true := by rwa [Nat.zero_add]
  have hf0 : ∀ j, j < k - 1 → ready (0 + j) = false := by
    intro j hj; rw [Nat.zero_add]; exact hf j hj
  obtain ⟨_, hs, hb⟩ := pollEvents_first_true ready (k - 1) 0 20 hd hr0 hf0
  simp [indexing_phase, hb, countEv_append, hs, countEv_cons, countEv_nil]

/-- Witness for C10: readiness true on the very first check gives zero
sleep intervals. -/
theorem poll_sleep_count_witness :
    countEv Event.slept (indexing_phase (fun _ => true) exampleTree).1 = 1 - 1 :=
  poll_sleep_count (fun _ => true) exampleTree 1 (by decide) (by decide) rfl
    (by omega)

/-- C4: when the parsed language-model reply lacks the node_list field the
question fails with an error, no context string is assembled and the
second completion call is never made. -/
theorem missing_node_list_fatal (parsed : List (String × JVal)) (tree : Tree)
    (query : String) (llm : String → String)
    (hmiss : objGet parsed "node_list" = none) :
    (∃ e, (retrieve_answer parsed tree query llm).2 = Except.error e) ∧
    (∀ s, Event.assembledContext s ∉ (retrieve_answer parsed tree query llm).1) ∧
    (∀ p, Event.calledCompletion p ∉ (retrieve_answer parsed tree query llm).1) := by
  cases hth : objGet parsed "thinking" with
  | none => simp [retrieve_answer, hth]
  | some th => simp [retrieve_answer, hth, hmiss]

/-- Witness for C4 at a concrete reply carrying only a thinking field. -/
theorem missing_node_list_fatal_witness :
    (∃ e, (retrieve_answer [("thinking", JVal.str "reasoning")] exampleTree
        "question" (fun _ => "answer")).2 = Except.error e) ∧
    (∀ s, Event.assembledContext s ∉
      (retrieve_answer [("thinking", JVal.str "reasoning")] exampleTree
        "question" (fun _ => "answer")).1) ∧
    (∀ p, Event.calledCompletion p ∉
      (retrieve_answer [("thinking", JVal.str "reasoning")] exampleTree
        "question" (fun _ => "answer")).1) :=
  missing_node_list_fatal [("thinking", JVal.str "reasoning")] exampleTree
    "question" (fun _ => "answer") (by decide)

/-- C8: with neither an uploaded file nor a URL, the handler shows the
validation error and performs no filesystem or network side effect: no
directory creation, no file write, no HTTP GET, no submission, no tree
fetch and no completion call. -/
theorem no_input_validation (get : String → Except String (List Nat))
    (submit : String → Except String String) (ready : Nat → Bool) (tree : Tree) :
    run_clicked "" none get submit ready tree
      = ([Event.errorShown noInputMsg], Except.error noInputMsg) ∧
    Event.mkdirData ∉ (run_clicked "" none get submit ready tree).1 ∧
    (∀ p c, Event.wroteFile p c ∉ (run_clicked "" none get submit ready tree).1) ∧
    (∀ u, Event.httpGet u ∉ (run_clicked "" none get submit ready tree).1) ∧
    (∀ p, Event.submitCalled p ∉ (run_clicked "" none get submit ready tree).1) ∧
    Event.fetchedTree ∉ (run_clicked "" none get submit ready tree).1 ∧
    (∀ s, Event.calledCompletion s ∉ (run_clicked "" none get submit ready tree).1) := by
  have h1 : run_clicked "" none get submit ready tree
      = ([Event.errorShown noInputMsg], Except.error noInputMsg) := by
    simp [run_clicked]
  refine ⟨h1, ?_, ?_, ?_, ?_, ?_, ?_⟩ <;> simp [h1]

/-- C7: when the HTTP GET of the PDF URL raises, ingestion halts with that
error before any file write and before any submission to the indexing
service, and no tree is fetched. -/
theorem url_fetch_failure_halts (pdf_url : String)
    (get : String → Except String (List Nat))
    (submit : String → Except String String) (ready : Nat → Bool) (tree : Tree)
    (e : String) (hurl : ¬pdf_url = "") (hget : get pdf_url = Except.error e) :
    run_clicked pdf_url none get submit ready tree
      = ([Event.mkdirData, Event.httpGet pdf_url], Except.error e) ∧
    (∀ p c, Event.wroteFile p c ∉
      (run_clicked pdf_url none get submit ready tree).1) ∧
    (∀ p, Event.submitCalled p ∉
      (run_clicked pdf_url none get submit ready tree).1) ∧
    Event.fetchedTree ∉ (run_clicked pdf_url none get submit ready tree).1 := by
  have h1 : run_clicked pdf_url none get submit ready tree
      = ([Event.mkdirData, Event.httpGet pdf_url], Except.error e) := by
    simp [run_clicked, hurl, hget]
  refine ⟨h1, ?_, ?_, ?_⟩ <;> simp [h1]

/-- Witness for C7 at a concrete URL whose fetch raises a network error. -/
theorem url_fetch_failure_halts_witness :
    run_clicked "http://host/doc.pdf" none (fun _ => Except.error "net down")
        (fun p => Except.ok p) (fun _ => true) exampleTree
      = ([Event.mkdirData, Event.httpGet "http://host/doc.pdf"],
          Except.error "net down") ∧
    (∀ p c, Event.wroteFile p c ∉
      (run_clicked "http://host/doc.pdf" none (fun _ => Except.error "net down")
        (fun p => Except.ok p) (fun _ => true) exampleTree).1) ∧
    (∀ p, Event.submitCalled p ∉
      (run_clicked "http://host/doc.pdf" none (fun _ => Except.error "net down")
        (fun p => Except.ok p) (fun _ => true) exampleTree).1) ∧
    Event.fetchedTree ∉
      (run_clicked "http://host/doc.pdf" none (fun _ => Except.error "net down")
        (fun p => Except.ok p) (fun _ => true) exampleTree).1 :=
  url_fetch_failure_halts "http://host/doc.pdf"
    (fun _ => Except.error "net down") (fun p => Except.ok p) (fun _ => true)
    exampleTree "net down" (by decide) rfl

/-- C9: an uploaded file takes precedence over a supplied URL: its bytes
are written under the data directory with the original filename and no
HTTP GET is performed for any URL. -/
theorem upload_precedence (pdf_url : String) (f : UploadedFile)
    (get : String → Except String (List Nat))
    (submit : String → Except String String) (ready : Nat → Bool) (tree : Tree) :
    (∃ rest, (run_clicked pdf_url (some f) get submit ready tree).1
      = Event.mkdirData :: Event.wroteFile ("data/" ++ f.name) f.content :: rest) ∧
    (∀ u, Event.httpGet u ∉ (run_clicked pdf_url (some f) get submit ready tree).1) := by
  cases hs : submit ("data/" ++ f.name) with
  | error e =>
      constructor
      · exact ⟨[Event.submitCalled ("data/" ++ f.name)],
          by simp [run_clicked, hs]⟩
      · intro u
        simp [run_clicked, hs]
  | ok d =>
      constructor
      · exact ⟨Event.submitCalled ("data/" ++ f.name)
            :: (indexing_phase ready tree).1,
          by simp [run_clicked, hs]⟩
      · intro u hmem
        simp [run_clicked, hs, List.mem_cons] at hmem
        rcases indexing_phase_mem ready tree _ hmem with h | h | h | h <;>
          simp at h

end VRag
